import Mathlib

/-!
Shallow embedding of the eyeball repository's augmentation encode/decode
adapters, with coordinates as exact rationals:

* `MeganeAug` embeds `megane/augment.py` (`encode`, `decode`);
* `Albumen` embeds `megane/augment/albumen.py` (`idendity`, `encode`, `decode`);
* `Megane2` embeds `megane2/augments.py` (`Augment.__call__`).

Python raising an exception is modelled by `Except.error`; machine floats are
modelled by `ℚ` (the spec accepts the rounding differences, and every claim
here is about structure, ordering and scaling, not float rounding).
-/

namespace Eyeball

/-- A raster image: only its size and an opaque pixel-content tag are
observable by the code under study (`image.size` is `(width, height)`,
`np.array(image).shape[:2]` is `(height, width)`). -/
structure Img where
  width : ℚ
  height : ℚ
  pixels : ℕ
deriving DecidableEq

/-- A single (x, y) coordinate. -/
abbrev Pt := ℚ × ℚ

/-- A polygon, an ordered list of points. -/
abbrev Polygon := List Pt

/-- Modelled from the spec: `Sample` from `megane.data` is not under `src/`;
per the data model section it holds an image, an ordered list of polygons
with normalized coordinates, one class per box, and optional scores. -/
structure Sample where
  image : Img
  boxes : List Polygon
  classes : List ℕ
  scores : Option (List ℚ)
deriving DecidableEq

/-- Modelled from the spec: `utils.denormalize_polygon` is not under `src/`;
per the spec, coordinates are scaled from normalized space to pixel space by
the image's own width and height (`batch=True` maps this over a list). -/
def denormalize_polygon (poly : Polygon) (w h : ℚ) : Polygon :=
  poly.map fun p => (p.1 * w, p.2 * h)

/-- Modelled from the spec: `utils.normalize_polygon` is not under `src/`;
the inverse scaling, dividing pixel coordinates by width and height. -/
def normalize_polygon (poly : Polygon) (w h : ℚ) : Polygon :=
  poly.map fun p => (p.1 / w, p.2 / h)

/-- Modelled from the spec: `simpoly.scale_to` is an external dependency;
per the spec's numeric semantics it scales normalized coordinates to pixel
space by the given width and height. -/
def scale_to (poly : Polygon) (w h : ℚ) : Polygon :=
  poly.map fun p => (p.1 * w, p.2 * h)

/-- Modelled from the spec: `simpoly.scale_from`, the inverse of
`scale_to`, dividing each coordinate by the given width and height. -/
def scale_from (poly : Polygon) (w h : ℚ) : Polygon :=
  poly.map fun p => (p.1 / w, p.2 / h)

/-- The albumentations-side data dict `{image, keypoints, box_mapping}`
produced by `megane/augment.py`'s `encode` and consumed by its `decode`. -/
structure AlbData where
  image : Img
  keypoints : List Pt
  box_mapping : List ℕ
deriving DecidableEq

/-- The data dict `{image, keypoints, box_mapping, classes}` of
`megane/augment/albumen.py`, which also carries the classes through. -/
structure AlbDataC where
  image : Img
  keypoints : List Pt
  box_mapping : List ℕ
  classes : List ℕ
deriving DecidableEq

/-- The `for i, polygon in enumerate(boxes): keypoints.extend(polygon);
masks.extend([i] * len(polygon))` loop shared by both `encode`s, started at
index `k` with accumulators. -/
def flattenLoop (k : ℕ) (acc : List Pt × List ℕ) (polys : List Polygon) :
    List Pt × List ℕ :=
  (polys.enumFrom k).foldl
    (fun a ip => (a.1 ++ ip.2, a.2 ++ List.replicate ip.2.length ip.1)) acc

/-- Flattening a polygon list into `(keypoints, box_mapping)`. -/
def flatten_polys (polys : List Polygon) : List Pt × List ℕ :=
  flattenLoop 0 ([], []) polys

/-- The list comprehension `[c for (c, keep) in zip(xs, keeps) if keep]`. -/
def filterKeep {α : Type} (xs : List α) (keeps : List Bool) : List α :=
  (xs.zip keeps).filterMap fun p => if p.2 then some p.1 else none

namespace MeganeAug

/-- `encode` of `megane/augment.py`: denormalize each box by the sample
image's own size, then flatten into keypoints plus owning-box indices. -/
def encode (s : Sample) : AlbData :=
  let w := s.image.width
  let h := s.image.height
  let boxes := s.boxes.map fun p => denormalize_polygon p w h
  let fl := flatten_polys boxes
  { image := s.image, keypoints := fl.1, box_mapping := fl.2 }

/-- The per-box survival mask of `decode`:
`keeps = [len(box) > 2 for box in boxes]`.  In the Python source
`boxes = [[]] * len(sample.boxes)` makes the `len(sample.boxes)` entries
aliases of one shared list, so after the append loop every entry holds all
the zipped keypoints; the shared list is `(box_mapping.zip keypoints).map`
of the points. -/
def keeps (s : Sample) (outputs : AlbData) : List Bool :=
  let shared := (outputs.box_mapping.zip outputs.keypoints).map (·.2)
  (List.replicate s.boxes.length shared).map fun b => decide (b.length > 2)

/-- `decode` of `megane/augment.py`.  `boxes[mask]` raises `IndexError`
when a mask is out of range; otherwise, because of the `[[]] * n` aliasing,
each of the `n` entries ends up being the one shared list of all zipped
keypoints.  The boxes are then normalized by the ORIGINAL sample image's
size, filtered by `keeps`, and classes/scores are filtered by the same
mask; the new `Sample` carries the transform's output image. -/
def decode (s : Sample) (outputs : AlbData) : Except String Sample :=
  let w := s.image.width
  let h := s.image.height
  let n := s.boxes.length
  let pairs := outputs.box_mapping.zip outputs.keypoints
  if pairs.all fun p => p.1 < n then
    let shared : Polygon := pairs.map (·.2)
    let boxes0 : List Polygon := List.replicate n shared
    let ks := boxes0.map fun b => decide (b.length > 2)
    let boxes1 := boxes0.map fun b => normalize_polygon b w h
    Except.ok
      { image := outputs.image
        boxes := filterKeep boxes1 ks
        classes := filterKeep s.classes ks
        scores := s.scores.map fun sc => filterKeep sc ks }
  else
    Except.error "IndexError: list index out of range"

end MeganeAug

namespace Albumen

/-- `idendity` of `megane/augment/albumen.py`: returns its keyword
arguments unchanged. -/
def idendity (kw : AlbDataC) : AlbDataC := kw

/-- `encode` of `megane/augment/albumen.py`: scale each box to pixel space
by the image's own size, flatten into keypoints and masks, then
`assert max(masks) == len(classes) - 1`.  `max` of an empty list raises
`ValueError`; a failed assert raises `AssertionError`; the length
comparison is over ℤ, matching Python's `len(classes) - 1`. -/
def encode (s : Sample) : Except String AlbDataC :=
  let w := s.image.width
  let h := s.image.height
  let scaled := s.boxes.map fun p => scale_to p w h
  let fl := flatten_polys scaled
  match fl.2.max? with
  | none => Except.error "ValueError: max() arg is an empty sequence"
  | some m =>
    if (m : ℤ) = (s.classes.length : ℤ) - 1 then
      Except.ok
        { image := s.image, keypoints := fl.1, box_mapping := fl.2,
          classes := s.classes }
    else
      Except.error "AssertionError"

/-- The key order of `toolz.groupby(lambda i: i[1], enumerate(masks))`:
distinct mask values in order of first occurrence (Python dicts preserve
insertion order). -/
def groupKeys (masks : List ℕ) : List ℕ :=
  masks.foldl (fun acc m => if m ∈ acc then acc else acc ++ [m]) []

/-- The positions `[j for j, _ in idx]` of the group of mask value `m`:
indices at which `m` occurs in `masks`, in order. -/
def groupIdx (masks : List ℕ) (m : ℕ) : List ℕ :=
  masks.enum.filterMap fun p => if p.2 = m then some p.1 else none

/-- One iteration of the `for i, idx in groups.items()` loop of `decode`:
gather this group's keypoints (`xy[j]` raises `IndexError` out of range),
rescale them, and keep the box and `classes[i]` only when it has more than
two points. -/
def decodeStep (xy : List Pt) (classes : List ℕ) (masks : List ℕ)
    (w h : ℚ) (acc : List Polygon × List ℕ) (i : ℕ) :
    Except String (List Polygon × List ℕ) :=
  match (groupIdx masks i).mapM fun j =>
      match xy.get? j with
      | some p => Except.ok p
      | none => (Except.error "IndexError: keypoints" : Except String Pt) with
  | Except.error e => Except.error e
  | Except.ok pts =>
    let box := scale_from pts w h
    if box.length > 2 then
      match classes.get? i with
      | some c => Except.ok (acc.1 ++ [box], acc.2 ++ [c])
      | none => Except.error "IndexError: classes"
    else
      Except.ok acc

/-- `decode` of `megane/augment/albumen.py`: group the keypoints by their
mask value, rescale each group FROM THE OUTPUT IMAGE's size, drop groups
with at most two points, then `assert len(boxes) == len(out_classes)`.
The reconstructed sample has no scores. -/
def decode (outputs : AlbDataC) : Except String Sample :=
  let w := outputs.image.width
  let h := outputs.image.height
  match (groupKeys outputs.box_mapping).foldlM
      (decodeStep outputs.keypoints outputs.classes outputs.box_mapping w h)
      ([], []) with
  | Except.error e => Except.error e
  | Except.ok r =>
    if r.1.length = r.2.length then
      Except.ok
        { image := outputs.image, boxes := r.1, classes := r.2, scores := none }
    else
      Except.error "AssertionError"

end Albumen

namespace Megane2

/-- The `annotation` dict of `megane2/augments.py`: the `polygons` key the
code reads and writes, plus an opaque tag for the remaining keys. -/
structure Annot where
  polygons : List Polygon
  rest : ℕ
deriving DecidableEq

/-- `np.reshape(num_polygons, 4, 2)` on a flat point list whose length is a
multiple of four: split into chunks of four points. -/
def chunks4 : List Pt → List Polygon
  | [] => []
  | a :: b :: c :: d :: rest => [a, b, c, d] :: chunks4 rest
  | l => [l]

/-- `Augment.__call__` of `megane2/augments.py` with a non-`None`
transform.  `np.array(annotation[...])` only has a rectangular shape when
all polygons have the same point count (otherwise the later `[:, 0]`
indexing raises); the flattened points are scaled to pixel space by the
input image's size, passed to the transform, scaled back, and reshaped to
`(num_polygons, 4, 2)` — `np.array` of an empty keypoint list is 1-D, so
`[:, 0]` raises, and the reshape raises unless exactly `4 * num_polygons`
points come back.  On success the polygons slot of the dict is overwritten
with the reshaped points. -/
def callSome (t : Img → List Pt → Img × List Pt) (image : Img) (ann : Annot) :
    Except String (Img × Annot) :=
  let width := image.width
  let height := image.height
  let polys := ann.polygons
  let n := polys.length
  if polys.all fun p => p.length = polys.headI.length then
    let kps := polys.flatten.map fun p => (p.1 * width, p.2 * height)
    let r := t image kps
    let kps2 := r.2.map fun p => (p.1 / width, p.2 / height)
    if kps2 = [] then
      Except.error "IndexError: too many indices for array"
    else if kps2.length = 4 * n then
      Except.ok (r.1, { ann with polygons := chunks4 kps2 })
    else
      Except.error "ValueError: cannot reshape array"
  else
    Except.error "ValueError: setting an array element with a sequence"

/-- `Augment.__call__`: with `transform is None` the image and the
annotation dict are returned unchanged, otherwise `callSome` runs. -/
def call (transform : Option (Img → List Pt → Img × List Pt))
    (image : Img) (ann : Annot) : Except String (Img × Annot) :=
  match transform with
  | none => Except.ok (image, ann)
  | some t => callSome t image ann

/-- The caller's annotation dict after `Augment.__call__` returns or
raises: `annotation[...] = polygons.tolist()` writes into the caller's
dict, so after a successful call the caller's dict IS the returned one,
while on an exception the assignment was never reached and the dict is
unchanged. -/
def annAfterCall (transform : Option (Img → List Pt → Img × List Pt))
    (image : Img) (ann : Annot) : Annot :=
  match call transform image ann with
  | Except.ok r => r.2
  | Except.error _ => ann

end Megane2

/-! Helper lemmas about the flattening loop and lockstep filtering. -/

lemma flattenLoop_eq (polys : List Polygon) :
    ∀ (k : ℕ) (accP : List Pt) (accM : List ℕ),
      flattenLoop k (accP, accM) polys =
        (accP ++ polys.flatten,
         accM ++ ((polys.enumFrom k).map fun ip =>
            List.replicate ip.2.length ip.1).flatten) := by
  induction polys with
  | nil => intro k accP accM; simp [flattenLoop]
  | cons p ps ih =>
    intro k accP accM
    have step : flattenLoop k (accP, accM) (p :: ps)
        = flattenLoop (k + 1) (accP ++ p, accM ++ List.replicate p.length k) ps := by
      simp [flattenLoop, List.enumFrom_cons]
    rw [step, ih]
    simp

lemma flatten_polys_eq (polys : List Polygon) :
    flatten_polys polys =
      (polys.flatten,
       (polys.enum.map fun ip => List.replicate ip.2.length ip.1).flatten) := by
  have h := flattenLoop_eq polys 0 [] []
  simpa [flatten_polys, List.enum] using h

lemma replicate_zip {α β : Type} (i : α) :
    ∀ l : List β, (List.replicate l.length i).zip l = l.map fun x => (i, x) := by
  intro l
  induction l with
  | nil => rfl
  | cons x xs ih => simpa [List.replicate] using ih

lemma zip_flatten_tag (polys : List Polygon) :
    ∀ k : ℕ,
      (((polys.enumFrom k).map fun ip =>
          List.replicate ip.2.length ip.1).flatten).zip polys.flatten
        = ((polys.enumFrom k).map fun ip =>
            ip.2.map fun pt => (ip.1, pt)).flatten := by
  induction polys with
  | nil => intro k; rfl
  | cons p ps ih =>
    intro k
    simp only [List.enumFrom_cons, List.map_cons, List.flatten_cons]
    rw [List.zip_append (by simp), replicate_zip, ih]

lemma filterKeep_cons {α : Type} (x : α) (xs : List α) (k : Bool) (ks : List Bool) :
    filterKeep (x :: xs) (k :: ks) =
      (if k then [x] else []) ++ filterKeep xs ks := by
  cases k <;> simp [filterKeep]

lemma filterKeep_length_congr {α β : Type} :
    ∀ (ks : List Bool) (xs : List α) (ys : List β), xs.length = ys.length →
      (filterKeep xs ks).length = (filterKeep ys ks).length := by
  intro ks
  induction ks with
  | nil => intro xs ys _; simp [filterKeep]
  | cons k ks ih =>
    intro xs ys h
    cases xs with
    | nil =>
      cases ys with
      | nil => simp [filterKeep]
      | cons y ys => simp at h
    | cons x xs =>
      cases ys with
      | nil => simp at h
      | cons y ys =>
        simp only [List.length_cons, Nat.add_right_cancel_iff] at h
        rw [filterKeep_cons, filterKeep_cons]
        cases k <;> simp [ih xs ys h]

lemma mem_of_mem_filterKeep {α : Type} :
    ∀ (ks : List Bool) (xs : List α) (a : α), a ∈ filterKeep xs ks → a ∈ xs := by
  intro ks
  induction ks with
  | nil => intro xs a ha; simp [filterKeep] at ha
  | cons k ks ih =>
    intro xs a ha
    cases xs with
    | nil => simp [filterKeep] at ha
    | cons x xs =>
      rw [filterKeep_cons] at ha
      rcases List.mem_append.mp ha with h1 | h2
      · cases k <;> simp_all
      · exact List.mem_cons_of_mem x (ih xs a h2)

/-- C9: for every Sample whose boxes list is empty, the `encode` of
`megane/augment/albumen.py` raises (`max()` of the empty `box_mapping`
list) instead of returning an encoding; it never returns normally on a
zero-box Sample. -/
theorem C9_empty_boxes_encode_raises (s : Sample) (h : s.boxes = []) :
    Albumen.encode s = Except.error "ValueError: max() arg is an empty sequence" := by
  unfold Albumen.encode
  rw [h]
  rfl

theorem C9_empty_boxes_encode_raises_witness :
    Albumen.encode
        { image := { width := 4, height := 4, pixels := 0 },
          boxes := [], classes := [], scores := none }
      = Except.error "ValueError: max() arg is an empty sequence" :=
  C9_empty_boxes_encode_raises
    { image := { width := 4, height := 4, pixels := 0 },
      boxes := [], classes := [], scores := none } rfl

@[simp] lemma denormalize_polygon_length (p : Polygon) (w h : ℚ) :
    (denormalize_polygon p w h).length = p.length := by
  simp [denormalize_polygon]

@[simp] lemma normalize_polygon_length (p : Polygon) (w h : ℚ) :
    (normalize_polygon p w h).length = p.length := by
  simp [normalize_polygon]

@[simp] lemma scale_to_length (p : Polygon) (w h : ℚ) :
    (scale_to p w h).length = p.length := by
  simp [scale_to]

@[simp] lemma scale_from_length (p : Polygon) (w h : ℚ) :
    (scale_from p w h).length = p.length := by
  simp [scale_from]

lemma flatten_map_length (orig : List Polygon) (f : Polygon → Polygon)
    (hf : ∀ p, (f p).length = p.length) :
    ((orig.map f).flatten).length = orig.flatten.length := by
  induction orig with
  | nil => rfl
  | cons p ps ih => simp [hf, ih]

lemma length_flatten_enum_replicate (orig : List Polygon) :
    ∀ k, (((orig.enumFrom k).map fun ip =>
        List.replicate ip.2.length ip.1).flatten).length = orig.flatten.length := by
  induction orig with
  | nil => intro k; rfl
  | cons p ps ih => intro k; simp [List.enumFrom_cons, ih]

/-- Shape of the flattening loop on a pointwise-transformed polygon list:
keypoints are the scaled polygons concatenated in box order, the mapping
is one copy of each box index per point of that box, their lengths agree,
and zipping the mapping with the keypoints tags each transformed point
with the index of the box that owns it. -/
lemma flatten_polys_map_spec (orig : List Polygon) (f : Polygon → Polygon)
    (hf : ∀ p, (f p).length = p.length) :
    (flatten_polys (orig.map f)).1 = (orig.map f).flatten ∧
    (flatten_polys (orig.map f)).2
      = (orig.enum.map fun ip => List.replicate ip.2.length ip.1).flatten ∧
    (flatten_polys (orig.map f)).2.length = (flatten_polys (orig.map f)).1.length ∧
    (flatten_polys (orig.map f)).2.zip (flatten_polys (orig.map f)).1
      = (orig.enum.map fun ip => (f ip.2).map fun pt => (ip.1, pt)).flatten := by
  have hk : (flatten_polys (orig.map f)).1 = (orig.map f).flatten := by
    rw [flatten_polys_eq]
  have hm0 : (flatten_polys (orig.map f)).2
      = ((orig.map f).enum.map fun ip => List.replicate ip.2.length ip.1).flatten := by
    rw [flatten_polys_eq]
  have hm : (flatten_polys (orig.map f)).2
      = (orig.enum.map fun ip => List.replicate ip.2.length ip.1).flatten := by
    rw [hm0, List.enum_map, List.map_map]
    congr 1
    apply List.map_congr_left
    intro ip _
    simp [Function.comp_def, Prod.map, hf]
  refine ⟨hk, hm, ?_, ?_⟩
  · rw [hm, hk]
    rw [show orig.enum = orig.enumFrom 0 from rfl]
    rw [length_flatten_enum_replicate orig 0, flatten_map_length orig f hf]
  · rw [hm0, hk]
    rw [show (orig.map f).enum = (orig.map f).enumFrom 0 from rfl, zip_flatten_tag]
    rw [show (orig.map f).enumFrom 0 = (orig.map f).enum from rfl]
    rw [List.enum_map, List.map_map]
    congr 1

/-- What a successful `albumen.py` `encode` returns: the sample's image,
the flattening of the boxes scaled by that image's size, and the sample's
classes. -/
lemma albumen_encode_ok (s : Sample) (enc : AlbDataC)
    (h : Albumen.encode s = Except.ok enc) :
    enc.image = s.image ∧
    enc.keypoints = (flatten_polys (s.boxes.map fun p =>
        scale_to p s.image.width s.image.height)).1 ∧
    enc.box_mapping = (flatten_polys (s.boxes.map fun p =>
        scale_to p s.image.width s.image.height)).2 ∧
    enc.classes = s.classes := by
  simp only [Albumen.encode] at h
  split at h
  · exact absurd h (by simp)
  · split at h
    · cases h
      exact ⟨rfl, rfl, rfl, rfl⟩
    · exact absurd h (by simp)

lemma albumen_decode_ok_length (outputs : AlbDataC) (r : Sample)
    (h : Albumen.decode outputs = Except.ok r) :
    r.boxes.length = r.classes.length := by
  simp only [Albumen.decode] at h
  split at h
  · exact absurd h (by simp)
  · rename_i rr hrr
    split at h
    · rename_i hlen
      cases h
      exact hlen
    · exact absurd h (by simp)

/-- C8: the adapter's invariant checks fail fast with no recovery: an
encoding is returned only when `max(box_mapping) == len(classes) - 1`
(Python integer arithmetic, so over ℤ), a nonempty flattening whose
maximum violates that check makes `encode` return the `AssertionError`
and no encoding, and a decode that returns at all has surviving boxes and
classes of equal length. -/
theorem C8_assert_fail_fast :
    (∀ (s : Sample) (enc : AlbDataC), Albumen.encode s = Except.ok enc →
        ∃ m, enc.box_mapping.max? = some m ∧
          (m : ℤ) = (enc.classes.length : ℤ) - 1) ∧
    (∀ (s : Sample) (m : ℕ),
        (flatten_polys (s.boxes.map fun p =>
            scale_to p s.image.width s.image.height)).2.max? = some m →
        (m : ℤ) ≠ (s.classes.length : ℤ) - 1 →
        Albumen.encode s = Except.error "AssertionError") ∧
    (∀ (outputs : AlbDataC) (r : Sample), Albumen.decode outputs = Except.ok r →
        r.boxes.length = r.classes.length) := by
  refine ⟨?_, ?_, ?_⟩
  · intro s enc h
    simp only [Albumen.encode] at h
    split at h
    · exact absurd h (by simp)
    · rename_i m hm
      split at h
      · rename_i hc
        cases h
        exact ⟨m, hm, hc⟩
      · exact absurd h (by simp)
  · intro s m hm hne
    simp [Albumen.encode, hm, hne]
  · exact albumen_decode_ok_length

theorem C8_assert_fail_fast_witness :
    (flatten_polys
        (([[((0 : ℚ), (0 : ℚ)), (1/2, 0), (1/2, 1/2)]] : List Polygon).map fun p =>
          scale_to p (2 : ℚ) (2 : ℚ))).2.max? = some 0 ∧
    ((0 : ℕ) : ℤ) ≠ (([5, 6] : List ℕ).length : ℤ) - 1 ∧
    Albumen.encode
        { image := { width := 2, height := 2, pixels := 0 },
          boxes := [[(0, 0), (1/2, 0), (1/2, 1/2)]],
          classes := [5, 6], scores := none }
      = Except.error "AssertionError" :=
  ⟨rfl, by decide,
    C8_assert_fail_fast.2.1
      { image := { width := 2, height := 2, pixels := 0 },
        boxes := [[(0, 0), (1/2, 0), (1/2, 1/2)]],
        classes := [5, 6], scores := none }
      0 rfl (by decide)⟩

/-- C4: classes and scores are filtered in lockstep with box survival:
whenever the input sample's `classes` (and `scores`, when present) line up
with its boxes, a successful `megane/augment.py` `decode` returns equally
many boxes and classes, keeps `scores = None` as `None`, and filters
present scores by the same survival mask `keeps`, to the same length; a
successful `albumen.py` `decode` likewise returns equally many boxes and
classes. -/
theorem C4_lockstep_filter :
    (∀ (s : Sample) (out : AlbData) (r : Sample),
        s.classes.length = s.boxes.length →
        (∀ sc, s.scores = some sc → sc.length = s.boxes.length) →
        MeganeAug.decode s out = Except.ok r →
        r.boxes.length = r.classes.length ∧
        (s.scores = none → r.scores = none) ∧
        ∀ sc, s.scores = some sc →
          r.scores = some (filterKeep sc (MeganeAug.keeps s out)) ∧
          (filterKeep sc (MeganeAug.keeps s out)).length = r.boxes.length) ∧
    (∀ (out : AlbDataC) (r : Sample), Albumen.decode out = Except.ok r →
        r.boxes.length = r.classes.length) := by
  constructor
  · intro s out r hcls hsc h
    simp only [MeganeAug.decode] at h
    split at h
    · cases h
      refine ⟨?_, ?_, ?_⟩
      · exact filterKeep_length_congr _ _ _ (by simp [hcls])
      · intro hnone; simp [hnone]
      · intro sc hsome
        refine ⟨by simp [hsome, MeganeAug.keeps], ?_⟩
        have h1 : (filterKeep sc (MeganeAug.keeps s out)).length
            = (filterKeep ((List.replicate s.boxes.length
                ((out.box_mapping.zip out.keypoints).map (·.2))).map fun b =>
                  normalize_polygon b s.image.width s.image.height)
                (MeganeAug.keeps s out)).length :=
          filterKeep_length_congr _ _ _ (by simp [hsc sc hsome])
        simpa [MeganeAug.keeps] using h1
    · exact absurd h (by simp)
  · exact albumen_decode_ok_length

/-- A successful `megane/augment.py` `decode` carries the transform's
output image, and every surviving box was normalized by the ORIGINAL
sample image's width and height. -/
lemma megane_decode_ok_scaled (s : Sample) (out : AlbData) (r : Sample)
    (h : MeganeAug.decode s out = Except.ok r) :
    r.image = out.image ∧
    ∀ b ∈ r.boxes, ∃ pix, b = normalize_polygon pix s.image.width s.image.height := by
  simp only [MeganeAug.decode] at h
  split at h
  · cases h
    refine ⟨rfl, ?_⟩
    intro b hb
    have hb' := mem_of_mem_filterKeep _ _ _ hb
    obtain ⟨x, _, rfl⟩ := List.mem_map.mp hb'
    exact ⟨x, rfl⟩
  · exact absurd h (by simp)

/-- A single `decode` loop iteration either keeps the accumulator or
appends one box rescaled from the output image together with its class. -/
lemma decodeStep_ok_cases (xy : List Pt) (classes : List ℕ) (masks : List ℕ)
    (w h : ℚ) (acc acc' : List Polygon × List ℕ) (i : ℕ)
    (hstep : Albumen.decodeStep xy classes masks w h acc i = Except.ok acc') :
    acc' = acc ∨ ∃ pts c, acc' = (acc.1 ++ [scale_from pts w h], acc.2 ++ [c]) := by
  simp only [Albumen.decodeStep] at hstep
  split at hstep
  · exact absurd hstep (by simp)
  · rename_i pts hpts
    split at hstep
    · split at hstep
      · rename_i c hc
        cases hstep
        exact Or.inr ⟨pts, c, rfl⟩
      · exact absurd hstep (by simp)
    · cases hstep
      exact Or.inl rfl

/-- Fold invariant: every box accumulated by the `decode` loop of
`albumen.py` is some keypoint group rescaled by the given size. -/
lemma decode_fold_boxes_scaled (xy : List Pt) (classes : List ℕ)
    (masks : List ℕ) (w h : ℚ) :
    ∀ (keys : List ℕ) (acc res : List Polygon × List ℕ),
      (∀ b ∈ acc.1, ∃ pts, b = scale_from pts w h) →
      keys.foldlM (Albumen.decodeStep xy classes masks w h) acc = Except.ok res →
      ∀ b ∈ res.1, ∃ pts, b = scale_from pts w h := by
  intro keys
  induction keys with
  | nil =>
    intro acc res hacc hfold
    rw [List.foldlM_nil] at hfold
    cases hfold
    exact hacc
  | cons i keys ih =>
    intro acc res hacc hfold
    rw [List.foldlM_cons] at hfold
    cases hstep : Albumen.decodeStep xy classes masks w h acc i with
    | error e =>
      rw [hstep] at hfold
      have hcontra : (Except.error e : Except String (List Polygon × List ℕ))
          = Except.ok res := hfold
      exact absurd hcontra (by simp)
    | ok acc' =>
      rw [hstep] at hfold
      have hfold' : keys.foldlM (Albumen.decodeStep xy classes masks w h) acc'
          = Except.ok res := hfold
      refine ih acc' res ?_ hfold'
      rcases decodeStep_ok_cases xy classes masks w h acc acc' i hstep with
        rfl | ⟨pts, c, rfl⟩
      · exact hacc
      · intro b hb
        rcases List.mem_append.mp hb with h1 | h2
        · exact hacc b h1
        · rw [List.mem_singleton.mp h2]
          exact ⟨pts, rfl⟩

/-- A successful `albumen.py` `decode` carries the transform's output
image, and every surviving box was rescaled by THAT image's size. -/
lemma albumen_decode_ok_scaled (outputs : AlbDataC) (r : Sample)
    (h : Albumen.decode outputs = Except.ok r) :
    r.image = outputs.image ∧
    ∀ b ∈ r.boxes, ∃ pts,
      b = scale_from pts outputs.image.width outputs.image.height := by
  simp only [Albumen.decode] at h
  split at h
  · exact absurd h (by simp)
  · rename_i rr hrr
    split at h
    · cases h
      refine ⟨rfl, ?_⟩
      exact decode_fold_boxes_scaled _ _ _ _ _ _ _ _ (by simp) hrr
    · exact absurd h (by simp)

/-- C5: both `encode`s return a flat keypoint list that concatenates the
sample's polygons in box order (each polygon scaled to pixel space, its
points in original order) and a `box_mapping` of equal length whose k-th
entry is the index of the box owning the k-th keypoint — stated by zipping
the mapping with the keypoints, which tags every keypoint with its owning
box, preserving `(box_index, point_index)` traceability. -/
theorem C5_encode_flatten :
    (∀ s : Sample,
      (MeganeAug.encode s).keypoints
          = (s.boxes.map fun p =>
              denormalize_polygon p s.image.width s.image.height).flatten ∧
      (MeganeAug.encode s).box_mapping
          = (s.boxes.enum.map fun ip => List.replicate ip.2.length ip.1).flatten ∧
      (MeganeAug.encode s).box_mapping.length
          = (MeganeAug.encode s).keypoints.length ∧
      (MeganeAug.encode s).box_mapping.zip (MeganeAug.encode s).keypoints
          = (s.boxes.enum.map fun ip =>
              (denormalize_polygon ip.2 s.image.width s.image.height).map
                fun pt => (ip.1, pt)).flatten) ∧
    (∀ (s : Sample) (enc : AlbDataC), Albumen.encode s = Except.ok enc →
      enc.keypoints
          = (s.boxes.map fun p => scale_to p s.image.width s.image.height).flatten ∧
      enc.box_mapping
          = (s.boxes.enum.map fun ip => List.replicate ip.2.length ip.1).flatten ∧
      enc.box_mapping.length = enc.keypoints.length ∧
      enc.box_mapping.zip enc.keypoints
          = (s.boxes.enum.map fun ip =>
              (scale_to ip.2 s.image.width s.image.height).map
                fun pt => (ip.1, pt)).flatten) := by
  constructor
  · intro s
    exact flatten_polys_map_spec s.boxes
      (fun p => denormalize_polygon p s.image.width s.image.height)
      (fun p => denormalize_polygon_length p _ _)
  · intro s enc henc
    obtain ⟨_, hk, hm, _⟩ := albumen_encode_ok s enc henc
    rw [hk, hm]
    exact flatten_polys_map_spec s.boxes
      (fun p => scale_to p s.image.width s.image.height)
      (fun p => scale_to_length p _ _)

/-- A concrete two-box sample for the C5 witness. -/
def sW5 : Sample :=
  { image := { width := 4, height := 4, pixels := 0 }
    boxes := [[(0, 0), (1/4, 0), (1/4, 1/4)],
              [(1/2, 1/2), (3/4, 1/2), (3/4, 3/4)]]
    classes := [0, 1]
    scores := none }

/-- What `albumen.py`'s `encode` returns on `sW5`. -/
def encW5 : AlbDataC :=
  { image := { width := 4, height := 4, pixels := 0 }
    keypoints := [(0, 0), (1, 0), (1, 1), (2, 2), (3, 2), (3, 3)]
    box_mapping := [0, 0, 0, 1, 1, 1]
    classes := [0, 1] }

theorem C5_encode_flatten_witness :
    encW5.box_mapping.zip encW5.keypoints
      = (sW5.boxes.enum.map fun ip =>
          (scale_to ip.2 sW5.image.width sW5.image.height).map
            fun pt => (ip.1, pt)).flatten :=
  (C5_encode_flatten.2 sW5 encW5
    (by norm_num [Albumen.encode, sW5, encW5, scale_to, flatten_polys,
      flattenLoop, List.enumFrom, List.replicate_succ, List.max?_cons,
      List.max?_nil])).2.2.2

/-- A 10x20 sample whose transform output image is 20x10 (as a 90-degree
rotation produces), for the C6 counterexample. -/
def sC6 : Sample :=
  { image := { width := 10, height := 20, pixels := 0 }
    boxes := [[(1/10, 1/20), (1/5, 1/20), (1/5, 1/10)]]
    classes := [0]
    scores := none }

/-- A transform output for `sC6` with the image size swapped. -/
def outC6 : AlbData :=
  { image := { width := 20, height := 10, pixels := 1 }
    keypoints := [(1, 9), (1, 8), (2, 8)]
    box_mapping := [0, 0, 0] }

/-- What `megane/augment.py` `decode` returns on `sC6`/`outC6`: the
keypoints were divided by the ORIGINAL 10x20 size, not by the decoded
image's own 20x10 size. -/
def rC6 : Sample :=
  { image := outC6.image
    boxes := [[(1/10, 9/20), (1/10, 2/5), (1/5, 2/5)]]
    classes := [0]
    scores := none }

/-- C6 counterexample: in `megane/augment.py`, `decode` normalizes the
transformed keypoints by the ORIGINAL sample image's width/height, not by
the size of the image in the decoded output, so when the transform changes
the image size the decoded sample's normalized coordinates are NOT
numerically consistent with its own image: scaling the decoded box back
up by the decoded image's own size does not recover the transformed pixel
keypoints. -/
theorem C6_decode_scale_counterexample :
    MeganeAug.decode sC6 outC6 = Except.ok rC6 ∧
    denormalize_polygon rC6.boxes.headI rC6.image.width rC6.image.height
      ≠ outC6.keypoints := by
  constructor
  · norm_num [MeganeAug.decode, sC6, outC6, rC6, normalize_polygon, filterKeep,
      List.replicate_succ, List.zip_cons_cons, List.filterMap_cons]
  · norm_num [denormalize_polygon, rC6, outC6]

/-- C6 amended: both `encode`s scale each box from normalized to pixel
space by the sample image's own width and height; `albumen.py`'s `decode`
scales the keypoints back by the width and height of the image in the
decoded output, but `megane/augment.py`'s `decode` scales them back by the
ORIGINAL sample image's width and height (consistent with the decoded
image only when the transform preserves the image size). -/
theorem C6_scaling_amended :
    (∀ s : Sample,
      (MeganeAug.encode s).keypoints
          = (s.boxes.map fun p =>
              denormalize_polygon p s.image.width s.image.height).flatten) ∧
    (∀ (s : Sample) (out : AlbData) (r : Sample),
        MeganeAug.decode s out = Except.ok r →
        r.image = out.image ∧
        ∀ b ∈ r.boxes, ∃ pix,
          b = normalize_polygon pix s.image.width s.image.height) ∧
    (∀ (s : Sample) (enc : AlbDataC), Albumen.encode s = Except.ok enc →
        enc.image = s.image ∧
        enc.keypoints = (s.boxes.map fun p =>
            scale_to p s.image.width s.image.height).flatten) ∧
    (∀ (out : AlbDataC) (r : Sample), Albumen.decode out = Except.ok r →
        r.image = out.image ∧
        ∀ b ∈ r.boxes, ∃ pts,
          b = scale_from pts out.image.width out.image.height) := by
  refine ⟨?_, megane_decode_ok_scaled, ?_, albumen_decode_ok_scaled⟩
  · intro s
    exact (flatten_polys_map_spec s.boxes
      (fun p => denormalize_polygon p s.image.width s.image.height)
      (fun p => denormalize_polygon_length p _ _)).1
  · intro s enc henc
    obtain ⟨him, hk, _, _⟩ := albumen_encode_ok s enc henc
    rw [him, hk]
    exact ⟨rfl, (flatten_polys_map_spec s.boxes
      (fun p => scale_to p s.image.width s.image.height)
      (fun p => scale_to_length p _ _)).1⟩

theorem C6_scaling_amended_witness :
    rC6.image = outC6.image ∧
    ∀ b ∈ rC6.boxes, ∃ pix,
      b = normalize_polygon pix sC6.image.width sC6.image.height :=
  C6_scaling_amended.2.1 sC6 outC6 rC6
    (by norm_num [MeganeAug.decode, sC6, outC6, rC6, normalize_polygon,
      filterKeep, List.replicate_succ, List.zip_cons_cons, List.filterMap_cons])

/-- A concrete sample with scores, for the C4 witness. -/
def sW4 : Sample :=
  { image := { width := 6, height := 6, pixels := 0 }
    boxes := [[(0, 0), (1/6, 0), (1/6, 1/6)],
              [(1/3, 1/3), (1/2, 1/3), (1/2, 1/2)]]
    classes := [1, 2]
    scores := some [3/4, 1/2] }

/-- A concrete transform output for the C4 witness. -/
def outW4 : AlbData :=
  { image := { width := 6, height := 6, pixels := 1 }
    keypoints := [(1, 1), (2, 1), (2, 2)]
    box_mapping := [0, 0, 0] }

/-- What `megane/augment.py` `decode` returns on `sW4`/`outW4`. -/
def rW4 : Sample :=
  { image := outW4.image
    boxes := [[(1/6, 1/6), (1/3, 1/6), (1/3, 1/3)],
              [(1/6, 1/6), (1/3, 1/6), (1/3, 1/3)]]
    classes := [1, 2]
    scores := some [3/4, 1/2] }

theorem C4_lockstep_filter_witness :
    rW4.boxes.length = rW4.classes.length ∧
    rW4.scores = some (filterKeep [3/4, 1/2] (MeganeAug.keeps sW4 outW4)) := by
  have hdec : MeganeAug.decode sW4 outW4 = Except.ok rW4 := by
    norm_num [MeganeAug.decode, sW4, outW4, rW4, normalize_polygon, filterKeep,
      List.replicate_succ, List.zip_cons_cons, List.filterMap_cons]
  have h := C4_lockstep_filter.1 sW4 outW4 rW4 rfl
    (by intro sc hsc
        simp only [sW4] at hsc
        cases hsc
        rfl)
    hdec
  exact ⟨h.1, (h.2.2 [3/4, 1/2] rfl).1⟩

/-- A transform that shifts every keypoint right by one pixel. -/
def tC7 : Img → List Pt → Img × List Pt :=
  fun img kps => (img, kps.map fun p => (p.1 + 1, p.2))

/-- A 10x10 image for the C7 and C10 inputs. -/
def imgC7 : Img := { width := 10, height := 10, pixels := 0 }

/-- An annotation dict with one 4-point polygon, for the C7 counterexample. -/
def annC7 : Megane2.Annot :=
  { polygons := [[(0, 0), (1/10, 0), (1/10, 1/10), (0, 1/10)]], rest := 3 }

/-- What `Augment.__call__` returns on `tC7`/`imgC7`/`annC7`. -/
def rC7 : Img × Megane2.Annot :=
  (imgC7,
   { polygons := [[(1/10, 0), (1/5, 0), (1/5, 1/10), (1/10, 1/10)]], rest := 3 })

/-- C7 counterexample: `megane2`'s `Augment.__call__` mutates the caller's
annotation dict in place (`annotation[...] = polygons.tolist()`): after a
successful call with a keypoint-moving transform the input annotation's
polygons are NOT unchanged. -/
theorem C7_mutation_counterexample :
    (Megane2.call (some tC7) imgC7 annC7).isOk = true ∧
    Megane2.annAfterCall (some tC7) imgC7 annC7 ≠ annC7 := by
  have hcall : Megane2.call (some tC7) imgC7 annC7 = Except.ok rC7 := by
    norm_num [Megane2.call, Megane2.callSome, Megane2.chunks4,
      tC7, imgC7, annC7, rC7]
    intro hh
    exact absurd hh (by simp)
  constructor
  · rw [hcall]; rfl
  · rw [Megane2.annAfterCall, hcall]
    norm_num [rC7, annC7, imgC7]

/-- C7 amended: `megane/augment.py`'s `decode` returns a newly constructed
Sample built around the transform's output image (a pure function of its
inputs), and with `transform is None` `Augment.__call__` returns the image
and annotation unchanged; but with a non-`None` transform a successful
`Augment.__call__` overwrites the input annotation's polygons in place, so
afterwards the caller's annotation dict IS the returned one rather than
the original. -/
theorem C7_replacement_amended :
    (∀ (s : Sample) (out : AlbData) (r : Sample),
        MeganeAug.decode s out = Except.ok r → r.image = out.image) ∧
    (∀ (t : Img → List Pt → Img × List Pt) (img : Img) (ann : Megane2.Annot)
        (r : Img × Megane2.Annot),
        Megane2.call (some t) img ann = Except.ok r →
        Megane2.annAfterCall (some t) img ann = r.2) ∧
    (∀ (img : Img) (ann : Megane2.Annot),
        Megane2.call none img ann = Except.ok (img, ann)) := by
  refine ⟨?_, ?_, ?_⟩
  · intro s out r h
    exact (megane_decode_ok_scaled s out r h).1
  · intro t img ann r h
    rw [Megane2.annAfterCall, h]
  · intro img ann
    rfl

theorem C7_replacement_amended_witness :
    Megane2.annAfterCall (some tC7) imgC7 annC7 = rC7.2 :=
  C7_replacement_amended.2.1 tC7 imgC7 annC7 rC7
    (by
      norm_num [Megane2.call, Megane2.callSome, Megane2.chunks4,
        tC7, imgC7, annC7, rC7]
      intro hh
      exact absurd hh (by simp))

/-- Splitting a flat point list of length `4 * n` into chunks of four
yields `n` polygons of four points each. -/
lemma chunks4_spec :
    ∀ (n : ℕ) (l : List Pt), l.length = 4 * n →
      (Megane2.chunks4 l).length = n ∧ ∀ q ∈ Megane2.chunks4 l, q.length = 4 := by
  intro n
  induction n with
  | zero =>
    intro l hl
    have : l = [] := List.eq_nil_of_length_eq_zero (by omega)
    subst this
    simp [Megane2.chunks4]
  | succ n ih =>
    intro l hl
    rcases l with _ | ⟨a, _ | ⟨b, _ | ⟨c, _ | ⟨d, rest⟩⟩⟩⟩ <;>
      simp only [List.length_nil, List.length_cons] at hl
    · omega
    · omega
    · omega
    · omega
    · have hrest : rest.length = 4 * n := by omega
      obtain ⟨hlen, hall⟩ := ih rest hrest
      constructor
      · simp [Megane2.chunks4, hlen]
      · intro q hq
        simp only [Megane2.chunks4, List.mem_cons] at hq
        rcases hq with rfl | hq
        · rfl
        · exact hall q hq

/-- A transform that returns four fixed keypoints no matter how many it
was given. -/
def tC10 : Img → List Pt → Img × List Pt :=
  fun img _ => (img, [(0, 0), (10, 0), (10, 10), (0, 10)])

/-- An annotation dict with one TWO-point polygon, for the C10
counterexample. -/
def annC10 : Megane2.Annot := { polygons := [[(0, 0), (1/2, 1/2)]], rest := 0 }

/-- C10 counterexample: `Augment.__call__` with a non-`None` transform is
NOT defined only on 4-point polygons with a count-preserving transform:
on a single 2-point polygon and a transform returning four keypoints for
the two given, the reshape to `(num_polygons, 4, 2)` succeeds and the call
returns normally. -/
theorem C10_defined_counterexample :
    (Megane2.call (some tC10) imgC7 annC10).isOk = true ∧
    ¬ (∀ p ∈ annC10.polygons, p.length = 4) := by
  have hcall : Megane2.call (some tC10) imgC7 annC10
      = Except.ok (imgC7,
          { polygons := [[(0, 0), (1, 0), (1, 1), (0, 1)]], rest := 0 }) := by
    norm_num [Megane2.call, Megane2.callSome, Megane2.chunks4,
      tC10, imgC7, annC10]
    intro hh
    exact absurd hh (by simp)
  constructor
  · rw [hcall]; rfl
  · intro hall
    have := hall [(0, 0), (1/2, 1/2)] (by simp [annC10])
    simp at this

/-- C10 amended: with a non-`None` transform, `Augment.__call__` succeeds
only when the polygons are rectangular (equal point counts, as `np.array`
needs) and the transform returns exactly `4 * num_polygons` keypoints, in
which case the result holds `num_polygons` polygons of four points each
and the other annotation keys unchanged; when every polygon has exactly
4 points and the transform does not return exactly as many keypoints as
given, the call raises; with `transform None` the image and annotation are
returned unchanged. -/
theorem C10_reshape_amended :
    (∀ (t : Img → List Pt → Img × List Pt) (img : Img) (ann : Megane2.Annot)
        (r : Img × Megane2.Annot),
        Megane2.callSome t img ann = Except.ok r →
        (∀ p ∈ ann.polygons, p.length = ann.polygons.headI.length) ∧
        (t img (ann.polygons.flatten.map fun p =>
            (p.1 * img.width, p.2 * img.height))).2.length
          = 4 * ann.polygons.length ∧
        r.2.polygons.length = ann.polygons.length ∧
        (∀ q ∈ r.2.polygons, q.length = 4) ∧
        r.2.rest = ann.rest) ∧
    (∀ (t : Img → List Pt → Img × List Pt) (img : Img) (ann : Megane2.Annot),
        (∀ p ∈ ann.polygons, p.length = 4) →
        (t img (ann.polygons.flatten.map fun p =>
            (p.1 * img.width, p.2 * img.height))).2.length
          ≠ 4 * ann.polygons.length →
        ∃ e, Megane2.call (some t) img ann = Except.error e) ∧
    (∀ (img : Img) (ann : Megane2.Annot),
        Megane2.call none img ann = Except.ok (img, ann)) := by
  refine ⟨?_, ?_, ?_⟩
  · intro t img ann r h
    simp only [Megane2.callSome] at h
    split at h
    · rename_i hrect
      split at h
      · exact absurd h (by simp)
      · rename_i hne
        split at h
        · rename_i hlen
          cases h
          rw [List.length_map] at hlen
          refine ⟨?_, hlen, ?_, ?_, rfl⟩
          · intro p hp
            have := List.all_eq_true.mp hrect p hp
            exact of_decide_eq_true this
          · exact (chunks4_spec ann.polygons.length _ (by simpa using hlen)).1
          · exact (chunks4_spec ann.polygons.length _ (by simpa using hlen)).2
        · exact absurd h (by simp)
    · exact absurd h (by simp)
  · intro t img ann h4 hcount
    have hrect : ann.polygons.all
        (fun p => decide (p.length = ann.polygons.headI.length)) = true := by
      refine List.all_eq_true.mpr ?_
      intro p hp
      refine decide_eq_true ?_
      have hplen := h4 p hp
      rcases hq : ann.polygons with _ | ⟨q, qs⟩
      · rw [hq] at hp; simp at hp
      · have hqlen : q.length = 4 :=
          h4 q (by rw [hq]; exact List.mem_cons_self q qs)
        simp only [List.headI]
        rw [hplen, hqlen]
    show ∃ e, Megane2.callSome t img ann = Except.error e
    simp only [Megane2.callSome, hrect, if_true]
    by_cases hnil : ((t img (ann.polygons.flatten.map fun p =>
        (p.1 * img.width, p.2 * img.height))).2.map fun p =>
          (p.1 / img.width, p.2 / img.height)) = []
    · exact ⟨"IndexError: too many indices for array", by rw [if_pos hnil]⟩
    · have h2 : ¬ ((t img (ann.polygons.flatten.map fun p =>
          (p.1 * img.width, p.2 * img.height))).2.map fun p =>
            (p.1 / img.width, p.2 / img.height)).length
          = 4 * ann.polygons.length := by
        rw [List.length_map]
        exact hcount
      exact ⟨"ValueError: cannot reshape array", by rw [if_neg hnil, if_neg h2]⟩
  · intro img ann
    rfl

theorem C10_reshape_amended_witness :
    ∃ e, Megane2.call
        (some fun img _ => (img, ([] : List Pt)))
        { width := 10, height := 10, pixels := 0 }
        { polygons := [[(0, 0), (1/2, 0), (1/2, 1/2), (0, 1/2)]], rest := 0 }
      = Except.error e :=
  C10_reshape_amended.2.1
    (fun img _ => (img, ([] : List Pt)))
    { width := 10, height := 10, pixels := 0 }
    { polygons := [[(0, 0), (1/2, 0), (1/2, 1/2), (0, 1/2)]], rest := 0 }
    (by intro p hp; simp at hp; rw [hp]; rfl)
    (by simp)

/-- A two-box sample on a 10x10 image, for the C1 failing input. -/
def sC1 : Sample :=
  { image := { width := 10, height := 10, pixels := 0 }
    boxes := [[(0, 0), (1/10, 0), (1/10, 1/10)],
              [(1/5, 1/5), (3/10, 1/5), (3/10, 3/10)]]
    classes := [0, 1]
    scores := none }

/-- What `megane/augment.py` `decode ∘ encode` (an identity transform in
between) actually returns on `sC1`: because `boxes = [[]] * n` aliases one
shared list, EVERY decoded box is the concatenation of both polygons. -/
def rC1 : Sample :=
  { image := sC1.image
    boxes := [[(0, 0), (1/10, 0), (1/10, 1/10),
               (1/5, 1/5), (3/10, 1/5), (3/10, 3/10)],
              [(0, 0), (1/10, 0), (1/10, 1/10),
               (1/5, 1/5), (3/10, 1/5), (3/10, 3/10)]]
    classes := [0, 1]
    scores := none }

/-- C1: evaluating `megane/augment.py`'s `decode` on `encode`'s own output
(i.e. with an identity transform) at the two-box sample `sC1`: the round
trip does NOT return the original boxes — both decoded boxes are the
six-point concatenation of the two original three-point polygons, an
artifact of the `[[]] * len(sample.boxes)` shared-list aliasing, not of
any scaling rounding (the arithmetic here is exact). -/
theorem C1_identity_roundtrip_code_bug :
    MeganeAug.decode sC1 (MeganeAug.encode sC1) = Except.ok rC1 ∧
    rC1.classes = sC1.classes ∧
    rC1.boxes ≠ sC1.boxes := by
  refine ⟨?_, rfl, ?_⟩
  · norm_num [MeganeAug.decode, MeganeAug.encode, sC1, rC1, flatten_polys,
      flattenLoop, List.enumFrom, denormalize_polygon, normalize_polygon,
      filterKeep, List.replicate_succ, List.zip_cons_cons, List.filterMap_cons]
  · norm_num [sC1, rC1]

/-- A two-box sample on a 5x5 image, for the C2 failing input. -/
def sC2 : Sample :=
  { image := { width := 5, height := 5, pixels := 0 }
    boxes := [[(0, 0), (1/5, 0), (1/5, 1/5)],
              [(2/5, 2/5), (3/5, 2/5), (3/5, 3/5)]]
    classes := [3, 4]
    scores := none }

/-- What `megane/augment.py` `decode ∘ encode` actually returns on `sC2`. -/
def rC2 : Sample :=
  { image := sC2.image
    boxes := [[(0, 0), (1/5, 0), (1/5, 1/5),
               (2/5, 2/5), (3/5, 2/5), (3/5, 3/5)],
              [(0, 0), (1/5, 0), (1/5, 1/5),
               (2/5, 2/5), (3/5, 2/5), (3/5, 3/5)]]
    classes := [3, 4]
    scores := none }

/-- C2: on a transform output that is exactly the encoding (so keypoints
and `box_mapping` are consistent with it and no point was dropped),
`megane/augment.py`'s `decode` does NOT regroup each keypoint into the
polygon named by its `box_mapping` entry: decoded box 0 has six points
instead of its original three, and contains the keypoint `(2/5, 2/5)`
that `box_mapping` assigns to box 1. -/
theorem C2_regroup_code_bug :
    MeganeAug.decode sC2 (MeganeAug.encode sC2) = Except.ok rC2 ∧
    rC2.boxes.headI.length ≠ sC2.boxes.headI.length ∧
    ((2 : ℚ)/5, (2 : ℚ)/5) ∈ rC2.boxes.headI := by
  refine ⟨?_, ?_, ?_⟩
  · norm_num [MeganeAug.decode, MeganeAug.encode, sC2, rC2, flatten_polys,
      flattenLoop, List.enumFrom, denormalize_polygon, normalize_polygon,
      filterKeep, List.replicate_succ, List.zip_cons_cons, List.filterMap_cons]
  · norm_num [sC2, rC2]
  · norm_num [rC2]

/-- A two-box sample on an 8x8 image, for the C3 failing input. -/
def sC3 : Sample :=
  { image := { width := 8, height := 8, pixels := 0 }
    boxes := [[(0, 0), (1/8, 0), (1/8, 1/8)],
              [(1/4, 1/4), (3/8, 1/4), (3/8, 3/8)]]
    classes := [7, 9]
    scores := none }

/-- A transform output for `sC3` in which EVERY keypoint of box 0 was
dropped: only box 1's three pixel keypoints survive. -/
def outC3 : AlbData :=
  { image := { width := 8, height := 8, pixels := 0 }
    keypoints := [(2, 2), (3, 2), (3, 3)]
    box_mapping := [1, 1, 1] }

/-- What `megane/augment.py` `decode` actually returns on `sC3`/`outC3`:
box 0, all of whose points were removed, is still present (as a copy of
box 1's points), and its class 7 is still present. -/
def rC3 : Sample :=
  { image := outC3.image
    boxes := [[(1/4, 1/4), (3/8, 1/4), (3/8, 3/8)],
              [(1/4, 1/4), (3/8, 1/4), (3/8, 3/8)]]
    classes := [7, 9]
    scores := none }

/-- C3: on a transform output in which all of box 0's points were removed,
`megane/augment.py`'s `decode` does NOT discard box 0: the decoded sample
still has two boxes, and box 0's class 7 is still among the decoded
classes (the shared-list aliasing makes the survival test `len(box) > 2`
see every box as the full keypoint list). -/
theorem C3_discard_code_bug :
    MeganeAug.decode sC3 outC3 = Except.ok rC3 ∧
    rC3.boxes.length = 2 ∧
    7 ∈ rC3.classes := by
  refine ⟨?_, rfl, ?_⟩
  · norm_num [MeganeAug.decode, sC3, outC3, rC3, normalize_polygon,
      filterKeep, List.replicate_succ, List.zip_cons_cons, List.filterMap_cons]
  · norm_num [rC3]

end Eyeball
